import Mathlib

/-!
Shallow embedding of the schedule-sync pipeline (src/sync.py,
src/sync_radicale.py, src/sync_nextcloud.py) and proofs about it.

Conventions of the embedding:
* Python strings are Lean `String`s; character-level work is done on
  `String.data` (`List Char`), matching Python's per-character semantics
  for the ASCII data this program handles.
* A Python function that can raise inside a `try` boundary is modelled as
  an `Option`-returning function (`none` = an exception was raised).
* `datetime.strptime` with the format `"%a %b %d %Y %I:%M %p"` is modelled
  token-wise: the source always builds the parsed string by joining the
  four date tokens and one clock string with single spaces, so the format
  is parsed per token.  `pytz.timezone('US/Eastern').localize` is modelled
  by tagging the wall-clock datetime with the fixed zone name; datetimes
  are compared chronologically by (date, minutes-of-day), which agrees
  with comparison of the localized values for the same-day datetimes this
  program builds.
* Randomly generated uids (`uuid.uuid4()`) and `datetime.utcnow()` stamps
  are passed in as parameters, since the claims treat them as opaque.
-/

namespace ScheduleSync

/-- Python `\d` (ASCII range, as used by the scrape regexes on this data). -/
def isDigitCh (c : Char) : Bool := '0' ≤ c && c ≤ '9'

/-- Python `\s` / `str.strip` whitespace: space, tab, LF, VT, FF, CR. -/
def isSpaceCh (c : Char) : Bool :=
  c == ' ' || c == '\t' || c == '\n' || c == '\r' ||
  c == Char.ofNat 11 || c == Char.ofNat 12

/-- Numeric value of an ASCII digit. -/
def dv (c : Char) : Nat := c.toNat - 48

/-- ASCII lower-casing, as `str.lower()` behaves on this program's data. -/
def lowerAscii (cs : List Char) : List Char :=
  cs.map (fun c => if 'A' ≤ c && c ≤ 'Z' then Char.ofNat (c.toNat + 32) else c)

/-- Python `str.split(sep)` for a one-character separator: splits at every
occurrence, keeping empty fields (`"a  b".split(' ') = ["a", "", "b"]`). -/
def splitCh (sep : Char) : List Char → List (List Char)
  | [] => [[]]
  | c :: cs =>
    if c = sep then [] :: splitCh sep cs
    else
      match splitCh sep cs with
      | [] => [[c]]
      | t :: ts => (c :: t) :: ts

/-- Python `str.strip()`: drop leading and trailing whitespace. -/
def trimList (cs : List Char) : List Char :=
  ((cs.dropWhile isSpaceCh).reverse.dropWhile isSpaceCh).reverse

/-- Value of a digit string read left to right. -/
def digitsVal (cs : List Char) : Nat := cs.foldl (fun a c => 10 * a + dv c) 0

/-- A calendar date as validated by `datetime.strptime` / the `datetime`
constructor (month name, day-of-month and 4-digit year checks). -/
structure Date where
  year : Nat
  month : Nat
  day : Nat
deriving DecidableEq, Repr

/-- A localized wall-clock datetime: the date, minutes since midnight, and
the fixed zone tag applied by `pytz.timezone('US/Eastern').localize`. -/
structure LocalDT where
  date : Date
  minutes : Nat
  zone : String
deriving DecidableEq, Repr

/-- The VEVENT fields the pipeline sets: SUMMARY, DTSTART, DTEND, UID,
DTSTAMP (`create_icalendar_event` in all variants). -/
structure CalendarEvent where
  uid : String
  dtstart : LocalDT
  dtend : LocalDT
  summary : String
  dtstamp : Nat
deriving DecidableEq, Repr

/-- The identity triple (dtstart, dtend, summary) that
`retrieve_existing_events` uses as the dictionary key and
`compare_and_handle_existing` compares component-wise. -/
structure EventKey where
  dtstart : LocalDT
  dtend : LocalDT
  summary : String
deriving DecidableEq, Repr

/-- Chronological encoding of a date (injective and monotone for the
month ≤ 12, day ≤ 31 dates produced by parsing). -/
def dateOrd (d : Date) : Nat := (d.year * 12 + d.month) * 32 + d.day

/-- Chronological encoding of a localized datetime (minutes < 1440). -/
def dtOrd (t : LocalDT) : Nat := dateOrd t.date * 1440 + t.minutes

/-- Chronological strict order on the datetimes this program builds;
`dtstart < dtend` in the spec's sense. -/
def ltLocalDT (a b : LocalDT) : Prop := dtOrd a < dtOrd b

instance (a b : LocalDT) : Decidable (ltLocalDT a b) := by
  unfold ltLocalDT; infer_instance

/-- Minutes and meridiem tail of `strptime "%I:%M %p"` after the hour and
colon: exactly two minute digits with the first at most 5, at least one
whitespace character (the format's literal space), then `AM`/`PM`
case-insensitively, ending the string. -/
def clockTail (h : Nat) (cs : List Char) : Option Nat :=
  if h < 1 || 12 < h then none
  else
    match cs with
    | m1 :: m2 :: rest =>
      if isDigitCh m1 && isDigitCh m2 && decide (dv m1 ≤ 5) then
        match rest.takeWhile isSpaceCh, rest.dropWhile isSpaceCh with
        | [], _ => none
        | _ :: _, [p, q] =>
          let m := 10 * dv m1 + dv m2
          if (p = 'A' || p = 'a') && (q = 'M' || q = 'm') then
            some ((h % 12) * 60 + m)
          else if (p = 'P' || p = 'p') && (q = 'M' || q = 'm') then
            some ((h % 12 + 12) * 60 + m)
          else none
        | _ :: _, _ => none
      else none
    | _ => none

/-- `strptime "%I:%M %p"` on a clock string: a 1- or 2-digit hour in 1..12
(greedy two-digit reading first, as the `1[0-2]|0[1-9]|[1-9]` pattern),
a colon, then `clockTail`.  Result: minutes since midnight. -/
def parseClockCore (cs : List Char) : Option Nat :=
  match cs with
  | a :: b :: ':' :: rest =>
    if isDigitCh a && isDigitCh b then clockTail (10 * dv a + dv b) rest
    else none
  | a :: ':' :: rest =>
    if isDigitCh a then clockTail (dv a) rest
    else none
  | _ => none

/-- Clock-field parse as it occurs inside the composed
`"<date tokens> <clock>"` string: the format's literal space before `%I`
absorbs any extra leading whitespace of the clock field. -/
def parseClockTok (cs : List Char) : Option Nat :=
  parseClockCore (cs.dropWhile isSpaceCh)

/-- Weekday names accepted by `%a` (abbreviated or full, case-insensitive);
`datetime.strptime` parses but does not cross-check the weekday. -/
def weekdayNames : List String :=
  ["mon", "tue", "wed", "thu", "fri", "sat", "sun",
   "monday", "tuesday", "wednesday", "thursday", "friday", "saturday", "sunday"]

/-- `%a`: the token must be exactly a weekday name. -/
def isWeekdayTok (cs : List Char) : Bool :=
  weekdayNames.any (fun w => decide (w.data = lowerAscii cs))

/-- Month names accepted by `%b` (abbreviated or full, case-insensitive). -/
def monthNames : List (String × Nat) :=
  [("jan", 1), ("feb", 2), ("mar", 3), ("apr", 4), ("may", 5), ("jun", 6),
   ("jul", 7), ("aug", 8), ("sep", 9), ("oct", 10), ("nov", 11), ("dec", 12),
   ("january", 1), ("february", 2), ("march", 3), ("april", 4),
   ("june", 6), ("july", 7), ("august", 8), ("september", 9),
   ("october", 10), ("november", 11), ("december", 12)]

/-- `%b`: the token must be exactly a month name; yields its number. -/
def parseMonthTok (cs : List Char) : Option Nat :=
  (monthNames.find? (fun p => decide (p.1.data = lowerAscii cs))).map (·.2)

/-- `%d`: one or two digits with value 1..31. -/
def parseDayTok (cs : List Char) : Option Nat :=
  if cs.all isDigitCh && (decide (cs.length = 1) || decide (cs.length = 2)) then
    let v := digitsVal cs
    if 1 ≤ v && v ≤ 31 then some v else none
  else none

/-- `%Y`: exactly four digits; the `datetime` constructor requires
year ≥ 1 (MINYEAR). -/
def parseYearTok (cs : List Char) : Option Nat :=
  if cs.all isDigitCh && decide (cs.length = 4) then
    let v := digitsVal cs
    if 1 ≤ v then some v else none
  else none

/-- Gregorian month lengths, as validated by the `datetime` constructor. -/
def daysInMonth (y m : Nat) : Nat :=
  if m = 2 then
    if y % 4 = 0 && (y % 100 ≠ 0 || y % 400 = 0) then 29 else 28
  else if m = 4 || m = 6 || m = 9 || m = 11 then 30
  else 31

/-- Parse the four whitespace-split date tokens as
`strptime "%a %b %d %Y"` followed by the `datetime` day-of-month check. -/
def parseDateTokens (t0 t1 t2 t3 : List Char) : Option Date :=
  if isWeekdayTok t0 then
    match parseMonthTok t1, parseDayTok t2, parseYearTok t3 with
    | some m, some d, some y =>
      if d ≤ daysInMonth y m then some ⟨y, m, d⟩ else none
    | _, _, _ => none
  else none

/-- A raw shift dict of the simple-schema scrapers
(src/sync.py, src/sync_radicale.py): keys `date`, `time_range`, `details`. -/
structure RawShiftR where
  date : String
  time_range : String
  details : String
deriving DecidableEq, Repr

/-- A raw shift dict of the rich-schema scraper (src/sync_nextcloud.py):
keys `date`, `start_time`, `end_time`, `details`, `shift_length`. -/
structure RawShiftN where
  date : String
  start_time : String
  end_time : String
  details : String
  shift_length : Option String
deriving DecidableEq, Repr

/-- `create_icalendar_event(date_str, time_range, details)` of
src/sync_radicale.py (and identically src/sync.py): split the date label
on single spaces and the time range on `-`, access tokens 0..3 and parts
0..1 (an `IndexError` = `none`), compose and `strptime`-parse
`"<w> <mon> <d> <y> <clock>"` for the stripped start and end clock
strings, localize both into the fixed `US/Eastern` zone, and emit the
VEVENT with SUMMARY = `details` verbatim.  The random uid and the
DTSTAMP instant are parameters. -/
def create_icalendar_event_radicale (uid : String) (stamp : Nat)
    (date_str time_range details : String) : Option CalendarEvent :=
  match splitCh ' ' date_str.data, splitCh '-' time_range.data with
  | t0 :: t1 :: t2 :: t3 :: _, p0 :: p1 :: _ =>
    match parseDateTokens t0 t1 t2 t3,
          parseClockTok (trimList p0), parseClockTok (trimList p1) with
    | some d, some c1, some c2 =>
      some { uid := uid,
             dtstart := ⟨d, c1, "US/Eastern"⟩,
             dtend := ⟨d, c2, "US/Eastern"⟩,
             summary := details,
             dtstamp := stamp }
    | _, _, _ => none
  | _, _ => none

/-- Two-digit zero padding, as `strftime` `%I`/`%M` render. -/
def pad2 (n : Nat) : String :=
  if n < 10 then "0" ++ toString n else toString n

/-- `start_time.strftime('%I:%M %p')` on a minutes-of-day value. -/
def formatClock (m : Nat) : String :=
  let h := m / 60
  pad2 ((h + 11) % 12 + 1) ++ ":" ++ pad2 (m % 60) ++
    (if h < 12 then " AM" else " PM")

/-- `create_icalendar_event(date_str, start_time_str, end_time_str,
details, shift_length)` of src/sync_nextcloud.py: same date handling and
`US/Eastern` localization, but the clock strings arrive pre-split, the
placeholder detail is replaced by a shift-length string (or dropped), and
SUMMARY is the formatted clock range optionally suffixed with
`": <details>"`. -/
def create_icalendar_event_nextcloud (uid : String) (stamp : Nat)
    (date_str start_time_str end_time_str details : String)
    (shift_length : Option String) : Option CalendarEvent :=
  match splitCh ' ' date_str.data with
  | t0 :: t1 :: t2 :: t3 :: _ =>
    match parseDateTokens t0 t1 t2 t3,
          parseClockTok start_time_str.data, parseClockTok end_time_str.data with
    | some d, some c1, some c2 =>
      let details2 :=
        if details = "No details available" then
          match shift_length with
          | some l => l ++ " hrs"
          | none => ""
        else details
      let base := formatClock c1 ++ " - " ++ formatClock c2
      let summ := if details2 = "" then base else base ++ ": " ++ details2
      some { uid := uid,
             dtstart := ⟨d, c1, "US/Eastern"⟩,
             dtend := ⟨d, c2, "US/Eastern"⟩,
             summary := summ,
             dtstamp := stamp }
    | _, _, _ => none
  | _ => none

/-- Tail of the time-token pattern `\d{1,2}:\d{2}\s*[AP]M` after the hour
digits and colon (`pre`): exactly two minute digits, greedily consumed
whitespace, then an uppercase `AM`/`PM`.  Returns the matched characters
(the regex group text) and the remaining input. -/
def matchTimeTail (pre : List Char) (cs : List Char) :
    Option (List Char × List Char) :=
  match cs with
  | m1 :: m2 :: rest =>
    if isDigitCh m1 && isDigitCh m2 then
      match rest.dropWhile isSpaceCh with
      | p :: 'M' :: rest3 =>
        if p = 'A' || p = 'P' then
          some (pre ++ [m1, m2] ++ rest.takeWhile isSpaceCh ++ [p, 'M'], rest3)
        else none
      | _ => none
    else none
  | _ => none

/-- The time-token pattern `\d{1,2}:\d{2}\s*[AP]M` anchored at the head:
the greedy two-digit hour reading is tried first; a failing two-digit
reading leaves no one-digit alternative because the second digit cannot
also be the colon. -/
def matchClockTok (cs : List Char) : Option (List Char × List Char) :=
  match cs with
  | a :: b :: ':' :: rest =>
    if isDigitCh a && isDigitCh b then matchTimeTail [a, b, ':'] rest
    else none
  | a :: ':' :: rest =>
    if isDigitCh a then matchTimeTail [a, ':'] rest
    else none
  | _ => none

/-- The optional third group `(\d+\.\d+)?`: a nonempty digit run, a dot,
and a nonempty digit run; `none` when the group does not participate. -/
def matchDecimalLen (cs : List Char) : Option String :=
  match cs.dropWhile isSpaceCh with
  | [] => none
  | rest =>
    let d1 := rest.takeWhile isDigitCh
    if d1.isEmpty then none
    else
      match rest.dropWhile isDigitCh with
      | '.' :: rest2 =>
        let d2 := rest2.takeWhile isDigitCh
        if d2.isEmpty then none else some ⟨d1 ++ '.' :: d2⟩
      | _ => none

/-- One anchored attempt of the full scrape pattern
`(\d{1,2}:\d{2}\s*[AP]M)\s*-\s*(\d{1,2}:\d{2}\s*[AP]M)\s*(\d+\.\d+)?`,
yielding the three groups on success. -/
def matchShiftAt (cs : List Char) : Option (String × String × Option String) :=
  match matchClockTok cs with
  | none => none
  | some (t1, r1) =>
    match r1.dropWhile isSpaceCh with
    | '-' :: r3 =>
      match matchClockTok (r3.dropWhile isSpaceCh) with
      | none => none
      | some (t2, r5) => some (⟨t1⟩, ⟨t2⟩, matchDecimalLen r5)
    | _ => none

/-- `re.search` of the scrape pattern (src/sync_nextcloud.py, line 162):
the match anchored at the leftmost position where it succeeds. -/
def searchShiftAux : List Char → Option (String × String × Option String)
  | [] => none
  | c :: cs =>
    match matchShiftAt (c :: cs) with
    | some r => some r
    | none => searchShiftAux cs

/-- Groups (start time, end time, optional shift length) extracted from a
rendered time-range string, or `none` when the pattern does not occur. -/
def searchShiftTime (s : String) : Option (String × String × Option String) :=
  searchShiftAux s.data

/-- The lazy bracket body of `\[.*?\]`: scan to the first `]` (a `.` never
crosses a newline); returns the input remaining after the `]`. -/
def consumeToClose : List Char → Option (List Char)
  | [] => none
  | c :: rest =>
    if c = ']' then some rest
    else if c = '\n' then none
    else consumeToClose rest

/-- One anchored attempt of `\s*\[.*?\]`: greedy whitespace, `[`, lazy
body, `]`; returns the input remaining after the match. -/
def bracketMatch (cs : List Char) : Option (List Char) :=
  match cs.dropWhile isSpaceCh with
  | '[' :: tail => consumeToClose tail
  | _ => none

theorem consumeToClose_length {cs r : List Char}
    (h : consumeToClose cs = some r) : r.length < cs.length := by
  induction cs with
  | nil => simp [consumeToClose] at h
  | cons c cs ih =>
    simp only [consumeToClose] at h
    by_cases h1 : c = ']'
    · simp only [h1, if_pos rfl] at h
      injection h with h; subst h; simp
    · by_cases h2 : c = '\n'
      · simp [h1, h2] at h
      · simp only [h1, h2, if_neg, ite_false] at h
        exact Nat.lt_trans (ih h) (by simp)

theorem bracketMatch_length {cs r : List Char}
    (h : bracketMatch cs = some r) : r.length < cs.length := by
  unfold bracketMatch at h
  split at h
  · rename_i tail heq
    have h1 : r.length < tail.length + 1 :=
      Nat.lt_trans (consumeToClose_length h) (by simp)
    have h2 : tail.length + 1 ≤ cs.length := by
      have := congrArg List.length heq
      simp at this
      have hd := (cs.dropWhile_sublist isSpaceCh).length_le
      omega
    omega
  · exact absurd h (by simp)

/-- `re.sub(r'\s*\[.*?\]', '', time_range)` (src/sync.py line 141,
src/sync_radicale.py line 156): remove every occurrence of a bracketed
annotation together with the whitespace run preceding it, scanning left
to right. -/
def subBrackets (cs : List Char) : List Char :=
  match cs with
  | [] => []
  | c :: rest =>
    match h : bracketMatch (c :: rest) with
    | some r => subBrackets r
    | none => c :: subBrackets rest
termination_by cs.length
decreasing_by
  · exact bracketMatch_length h
  · simp

/-- The cleaned time range handed to `create_icalendar_event`. -/
def cleanTimeRange (s : String) : String := ⟨subBrackets s.data⟩

/-- One rendered shift block of the rich schema, as the per-shift `try`
bodies of `scrape_schedule` (src/sync_nextcloud.py) observe it:
`timeText` is the text of the `p.props, time.label` element (`none`
models `NoSuchElementException`), `detailText` the text of the `p.label`
element (`none` triggers the `"No details available"` placeholder).
Which CSS wrapper (`div.scheduleEntityWrapper` or `div.shiftPosition`)
produced the block is immaterial to the extracted data and is not
represented. -/
structure ShiftBlock where
  timeText : Option String
  detailText : Option String
deriving DecidableEq, Repr

/-- One `li.withDivider` day element with its `datetime` attribute and
contained shift blocks. -/
structure DayBlock where
  datetime : String
  shifts : List ShiftBlock
deriving DecidableEq, Repr

/-- The dedup key tuple `(day_date, start_time_str, end_time_str,
shift_details, shift_length)` of src/sync_nextcloud.py line 184. -/
abbrev ShiftKey := String × String × String × String × Option String

/-- The RawShift a block yields, or `none` when the block is skipped
(no time element, or the time text fails the pattern). -/
def blockRaw (date : String) (b : ShiftBlock) : Option RawShiftN :=
  match b.timeText with
  | none => none
  | some t =>
    match searchShiftTime t with
    | none => none
    | some (s, e, len) =>
      some ⟨date, s, e, b.detailText.getD "No details available", len⟩

/-- The dedup key of an emitted RawShift. -/
def rawKey (r : RawShiftN) : ShiftKey :=
  (r.date, r.start_time, r.end_time, r.details, r.shift_length)

/-- The body of the inner shift loop of `scrape_schedule`
(src/sync_nextcloud.py lines 154-201) acting on the
(`seen_shifts`, `schedule_data`) state: skip blocks with no parsable
time text, skip blocks whose key is already in `seen_shifts`, otherwise
record the key and append the shift dict. -/
def processShift (date : String) (st : List ShiftKey × List RawShiftN)
    (b : ShiftBlock) : List ShiftKey × List RawShiftN :=
  match blockRaw date b with
  | none => st
  | some r => if rawKey r ∈ st.1 then st else (rawKey r :: st.1, st.2 ++ [r])

/-- The per-day loop body: fold the shift loop over the day's blocks. -/
def processDay (st : List ShiftKey × List RawShiftN) (day : DayBlock) :
    List ShiftKey × List RawShiftN :=
  day.shifts.foldl (processShift day.datetime) st

/-- `scrape_schedule` of src/sync_nextcloud.py on an abstract rendered
document: both `seen_shifts` and `schedule_data` start empty, so the
dedup set is local to the single extraction call.  Per-shift failures
are the skip branches of `processShift`; no exception escapes the
per-shift boundary (the function is total). -/
def scrape_schedule_nextcloud (days : List DayBlock) : List RawShiftN :=
  (days.foldl processDay ([], [])).2

/-- Keys of the blocks of one day whose time text parses. -/
def parsedKeysDay (d : String) (blocks : List ShiftBlock) : List ShiftKey :=
  blocks.filterMap (fun b => (blockRaw d b).map rawKey)

/-- Keys of all parsable blocks of the document. -/
def allParsedKeys (days : List DayBlock) : List ShiftKey :=
  (days.map (fun dy => parsedKeysDay dy.datetime dy.shifts)).flatten

/-- Number of emitted RawShifts carrying a given dedup key. -/
def countKey (rs : List RawShiftN) (k : ShiftKey) : Nat :=
  rs.countP (fun r => decide (rawKey r = k))

/-- The EventKey of a generated VEVENT, as `retrieve_existing_events`
builds the index keys `(dtstart, dtend, summary)`. -/
def eventKey (e : CalendarEvent) : EventKey := ⟨e.dtstart, e.dtend, e.summary⟩

/-- The three-way comparison of `compare_and_handle_existing`
(src/sync_radicale.py lines 292-294, src/sync_nextcloud.py lines
353-355): a new event matches an index key exactly when dtstart, dtend
and summary all coincide; uid and DTSTAMP are never consulted. -/
def eventMatchesKey (e : CalendarEvent) (k : EventKey) : Bool :=
  decide (e.dtstart = k.dtstart) && decide (e.dtend = k.dtend) &&
    decide (e.summary = k.summary)

/-- The inner for/else loop over `existing_events.keys()`: the new event
is a duplicate when some index key matches. -/
def isDuplicate (e : CalendarEvent) (index : List EventKey) : Bool :=
  index.any (eventMatchesKey e)

/-- `compare_and_handle_existing(events_to_upload, existing_events)`
(identical in src/sync_radicale.py and src/sync_nextcloud.py): each
generated file holds one VEVENT; a file whose event matches an index key
is deleted (`os.remove`), the rest remain.  Result: the surviving files'
events, in order. -/
def compare_and_handle_existing (files : List CalendarEvent)
    (index : List EventKey) : List CalendarEvent :=
  files.filter (fun e => !isDuplicate e index)

/-- `upload_to_radicale_individual_files` (and the nextcloud CalDAV
upload): PUT every still-existing file; per-file transport status is
only logged.  Result: the list of events offered to the store. -/
def upload_to_radicale_individual_files (surviving : List CalendarEvent) :
    List CalendarEvent := surviving

/-- The reconcile-then-publish tail of `main` in src/sync_radicale.py and
src/sync_nextcloud.py: compare against the fetched index, then upload
the surviving files. -/
def pipeline_published (batch : List CalendarEvent) (index : List EventKey) :
    List CalendarEvent :=
  upload_to_radicale_individual_files (compare_and_handle_existing batch index)

/-- `upload_to_nextcloud_individual_files` of src/sync.py: PUT every
generated file, with no existence check and no comparison. -/
def upload_to_nextcloud_individual_files_sync (ics_files : List CalendarEvent) :
    List CalendarEvent := ics_files

/-- The publish tail of `main` in src/sync.py (lines 234-238): the
generated events are uploaded directly; no remote index is ever fetched
and no reconciliation step runs. -/
def main_sync_published (batch : List CalendarEvent) : List CalendarEvent :=
  upload_to_nextcloud_individual_files_sync batch

/-- One remote calendar collection as the CalDAV client lists it: its
name and the per-event parse results of its stored events (`none` for an
event whose parse raises and is skipped). -/
structure RemoteCalendar where
  name : String
  events : List (Option EventKey)
deriving Repr

/-- `retrieve_existing_events` of src/sync_nextcloud.py: scan the
principal's calendars for the first whose name equals `'personal'`
case-insensitively, collect the parsable events of that calendar into
the index, and return the index unchanged — an empty dict, not an
error — when no calendar matches. -/
def retrieve_existing_events_nextcloud (calendars : List RemoteCalendar) :
    List EventKey :=
  match calendars.find? (fun c => decide (lowerAscii c.name.data = "personal".data)) with
  | some cal => cal.events.filterMap id
  | none => []

/-- The HTTP outcome of the Radicale fetch: a 200 body parsed as one
calendar, a 207 multi-status whose per-href fetches were resolved, or
any other status code. -/
inductive FetchResponse where
  | ok (keys : List EventKey)
  | multi (keys : List EventKey)
  | fail (status : Nat)

/-- `retrieve_existing_events` of src/sync_radicale.py: 200 and 207
responses yield the parsed index; any other status is logged and an
empty dict is returned — the run proceeds. -/
def retrieve_existing_events_radicale : FetchResponse → List EventKey
  | .ok ks => ks
  | .multi ks => ks
  | .fail _ => []

/-- Observable steps of `safe_click`: the bounded explicit wait for
clickability (20 time units), the JS click, and the fixed backoff sleep
(10 time units) after a failed attempt. -/
inductive ClickAction where
  | wait (t : Nat)
  | click
  | sleep (t : Nat)
deriving DecidableEq, Repr

/-- The exception raised when the retry budget is spent; its message
carries the locator pair and the retry count
(`f"Failed to click element with {by}='{value}' after {retries} retries"`). -/
structure ClickError where
  locBy : String
  locValue : String
  retries : Nat
deriving DecidableEq, Repr

/-- The retry loop of `safe_click` (identical in all three variants,
e.g. src/sync.py lines 55-69) over the environment `outcome`, where
`outcome i = true` means the i-th attempt's wait-and-click succeeds:
a successful attempt waits and clicks and returns; a failed attempt
waits, sleeps 10, and continues with the next attempt. -/
def safe_click_go (outcome : Nat → Bool) : Nat → Nat → List ClickAction × Bool
  | 0, _ => ([], false)
  | k + 1, i =>
    if outcome i then ([ClickAction.wait 20, ClickAction.click], true)
    else
      let (tr, ok) := safe_click_go outcome k (i + 1)
      (ClickAction.wait 20 :: ClickAction.sleep 10 :: tr, ok)

/-- `safe_click(driver, by, value, retries)`: run the loop from attempt 0;
when the loop falls through, raise the exception carrying the locator
and the retry count.  The observed call sites use the default
`retries=5`. -/
def safe_click (outcome : Nat → Bool) (locBy locValue : String)
    (retries : Nat) : List ClickAction × Except ClickError Unit :=
  let (tr, ok) := safe_click_go outcome retries 0
  (tr, if ok then Except.ok () else Except.error ⟨locBy, locValue, retries⟩)

/-- The action trace of `n` consecutive failed attempts. -/
def failTrace : Nat → List ClickAction
  | 0 => []
  | n + 1 => ClickAction.wait 20 :: ClickAction.sleep 10 :: failTrace n

/-- The loop of `create_individual_ics_files` of src/sync_nextcloud.py
from entry index `i` on: each entry's normalization runs inside its own
try/except, so a failing entry is logged and skipped and the loop
continues.  `uidOf i` is the uuid drawn for entry `i`. -/
def files_nextcloud_from (uidOf : Nat → String) (stamp : Nat) :
    Nat → List RawShiftN → List CalendarEvent
  | _, [] => []
  | i, e :: rest =>
    match create_icalendar_event_nextcloud (uidOf i) stamp
        e.date e.start_time e.end_time e.details e.shift_length with
    | none => files_nextcloud_from uidOf stamp (i + 1) rest
    | some ev => ev :: files_nextcloud_from uidOf stamp (i + 1) rest

/-- `create_individual_ics_files(schedule_data)` of src/sync_nextcloud.py. -/
def create_individual_ics_files_nextcloud (uidOf : Nat → String) (stamp : Nat)
    (entries : List RawShiftN) : List CalendarEvent :=
  files_nextcloud_from uidOf stamp 0 entries

/-- The loop of `create_individual_ics_files` of src/sync_radicale.py from
entry index `i` on: there is no per-entry exception handler, so the first
entry whose normalization raises aborts the whole call (`none`) and no
later entry is processed. -/
def files_radicale_from (uidOf : Nat → String) (stamp : Nat) :
    Nat → List RawShiftR → Option (List CalendarEvent)
  | _, [] => some []
  | i, e :: rest =>
    match create_icalendar_event_radicale (uidOf i) stamp
        e.date e.time_range e.details with
    | none => none
    | some ev => (files_radicale_from uidOf stamp (i + 1) rest).map (ev :: ·)

/-- `create_individual_ics_files(schedule_data)` of src/sync_radicale.py. -/
def create_individual_ics_files_radicale (uidOf : Nat → String) (stamp : Nat)
    (entries : List RawShiftR) : Option (List CalendarEvent) :=
  files_radicale_from uidOf stamp 0 entries

/-- A constant uid supply for concrete instances. -/
def constUid : Nat → String := fun _ => "u"

/-! Shared helper lemmas. -/

theorem eventMatchesKey_iff (e : CalendarEvent) (k : EventKey) :
    eventMatchesKey e k = true ↔ eventKey e = k := by
  cases k
  simp [eventMatchesKey, eventKey, and_assoc]

theorem eventMatchesKey_self (e : CalendarEvent) :
    eventMatchesKey e (eventKey e) = true := by
  simp [eventMatchesKey, eventKey]

theorem eventMatchesKey_congr {e1 e2 : CalendarEvent} (k : EventKey)
    (h : eventKey e1 = eventKey e2) :
    eventMatchesKey e1 k = eventMatchesKey e2 k := by
  have h1 : e1.dtstart = e2.dtstart := congrArg EventKey.dtstart h
  have h2 : e1.dtend = e2.dtend := congrArg EventKey.dtend h
  have h3 : e1.summary = e2.summary := congrArg EventKey.summary h
  simp [eventMatchesKey, h1, h2, h3]

theorem isDuplicate_congr {e1 e2 : CalendarEvent} (index : List EventKey)
    (h : eventKey e1 = eventKey e2) :
    isDuplicate e1 index = isDuplicate e2 index := by
  unfold isDuplicate
  induction index with
  | nil => rfl
  | cons k ks ih => simp [List.any_cons, ih, eventMatchesKey_congr k h]

/-! Claim theorems. -/

/-- C3: duplicate detection during reconciliation depends only on the
EventKey triple: the comparison of `compare_and_handle_existing` matches
a new event against an index key exactly when (dtstart, dtend, summary)
all agree, and the duplicate verdict of two events with equal field
triples is the same whatever their `uid` or DTSTAMP. -/
theorem dedup_key_only :
    (∀ (e : CalendarEvent) (k : EventKey),
      eventMatchesKey e k = true ↔ eventKey e = k) ∧
    (∀ (e1 e2 : CalendarEvent) (index : List EventKey),
      e1.dtstart = e2.dtstart → e1.dtend = e2.dtend → e1.summary = e2.summary →
      isDuplicate e1 index = isDuplicate e2 index) := by
  refine ⟨eventMatchesKey_iff, ?_⟩
  intro e1 e2 index h1 h2 h3
  exact isDuplicate_congr index (by simp [eventKey, h1, h2, h3])

/-- Witness for C3: two events equal up to uid and DTSTAMP get the same
duplicate verdict against a one-key index. -/
theorem dedup_key_only_witness :
    isDuplicate ⟨"uid-a", ⟨⟨2025, 1, 6⟩, 540, "US/Eastern"⟩,
        ⟨⟨2025, 1, 6⟩, 1020, "US/Eastern"⟩, "Front Desk", 0⟩
      [⟨⟨⟨2025, 1, 6⟩, 540, "US/Eastern"⟩,
        ⟨⟨2025, 1, 6⟩, 1020, "US/Eastern"⟩, "Front Desk"⟩] =
    isDuplicate ⟨"uid-b", ⟨⟨2025, 1, 6⟩, 540, "US/Eastern"⟩,
        ⟨⟨2025, 1, 6⟩, 1020, "US/Eastern"⟩, "Front Desk", 99⟩
      [⟨⟨⟨2025, 1, 6⟩, 540, "US/Eastern"⟩,
        ⟨⟨2025, 1, 6⟩, 1020, "US/Eastern"⟩, "Front Desk"⟩] :=
  dedup_key_only.2 _ _ _ rfl rfl rfl

/-- C1 (amended): in the two variants that reconcile (src/sync_radicale.py
and src/sync_nextcloud.py), an event whose EventKey matches the remote
index is dropped and never uploaded, and a second run of the same batch
against an index extended with the first run's published keys publishes
nothing; the src/sync.py variant has no reconciliation step (see the
counterexample). -/
theorem reconcile_idempotent :
    (∀ (e : CalendarEvent) (batch : List CalendarEvent) (index : List EventKey),
      isDuplicate e index = true → e ∉ pipeline_published batch index) ∧
    (∀ (batch : List CalendarEvent) (index : List EventKey),
      pipeline_published batch
        (index ++ (pipeline_published batch index).map eventKey) = []) := by
  constructor
  · intro e batch index hdup hmem
    simp only [pipeline_published, upload_to_radicale_individual_files,
      compare_and_handle_existing, List.mem_filter] at hmem
    rw [hdup] at hmem
    simp at hmem
  · intro batch index
    simp only [pipeline_published, upload_to_radicale_individual_files,
      compare_and_handle_existing]
    rw [List.filter_eq_nil_iff]
    intro e he
    have hdup : isDuplicate e (index ++
        (batch.filter (fun x => !isDuplicate x index)).map eventKey) = true := by
      unfold isDuplicate
      rw [List.any_append, Bool.or_eq_true]
      by_cases hd : index.any (eventMatchesKey e) = true
      · exact Or.inl hd
      · refine Or.inr ?_
        rw [List.any_eq_true]
        refine ⟨eventKey e, ?_, eventMatchesKey_self e⟩
        apply List.mem_map_of_mem
        rw [List.mem_filter]
        refine ⟨he, ?_⟩
        cases hval : index.any (eventMatchesKey e)
        · rfl
        · exact absurd hval hd
    simp [hdup]

/-- Witness for C1: an event whose key is in the index is not published. -/
theorem reconcile_idempotent_witness :
    (⟨"uid-a", ⟨⟨2025, 1, 6⟩, 540, "US/Eastern"⟩,
        ⟨⟨2025, 1, 6⟩, 1020, "US/Eastern"⟩, "Front Desk", 0⟩ : CalendarEvent) ∉
      pipeline_published
        [⟨"uid-a", ⟨⟨2025, 1, 6⟩, 540, "US/Eastern"⟩,
          ⟨⟨2025, 1, 6⟩, 1020, "US/Eastern"⟩, "Front Desk", 0⟩]
        [⟨⟨⟨2025, 1, 6⟩, 540, "US/Eastern"⟩,
          ⟨⟨2025, 1, 6⟩, 1020, "US/Eastern"⟩, "Front Desk"⟩] :=
  reconcile_idempotent.1 _ _ _ (by decide)

/-- Counterexample for C1: the src/sync.py variant never consults a remote
index — `main` goes straight from generated files to upload — so an event
whose key is already remote is republished, and a second identical run
publishes the whole batch again instead of nothing. -/
theorem sync_variant_publishes_duplicates :
    isDuplicate ⟨"uid-a", ⟨⟨2025, 1, 6⟩, 540, "US/Eastern"⟩,
        ⟨⟨2025, 1, 6⟩, 1020, "US/Eastern"⟩, "Front Desk", 0⟩
      [⟨⟨⟨2025, 1, 6⟩, 540, "US/Eastern"⟩,
        ⟨⟨2025, 1, 6⟩, 1020, "US/Eastern"⟩, "Front Desk"⟩] = true ∧
    main_sync_published
      [⟨"uid-a", ⟨⟨2025, 1, 6⟩, 540, "US/Eastern"⟩,
        ⟨⟨2025, 1, 6⟩, 1020, "US/Eastern"⟩, "Front Desk", 0⟩] ≠ [] :=
  ⟨by decide, by decide⟩

/-- C10: the reconciler deduplicates only against the remote index, never
within the new batch: two batch events with equal EventKey absent from
the index both survive `compare_and_handle_existing` and both are
uploaded. -/
theorem intra_batch_duplicates_survive :
    ∀ (pre mid post : List CalendarEvent) (e1 e2 : CalendarEvent)
      (index : List EventKey),
      eventKey e1 = eventKey e2 → isDuplicate e1 index = false →
      pipeline_published (pre ++ e1 :: mid ++ e2 :: post) index =
        pipeline_published pre index ++
          e1 :: pipeline_published mid index ++
            e2 :: pipeline_published post index := by
  intro pre mid post e1 e2 index hk h1
  have h2 : isDuplicate e2 index = false := by
    rw [← isDuplicate_congr index hk]; exact h1
  simp [pipeline_published, compare_and_handle_existing,
    upload_to_radicale_individual_files, List.filter_append, h1, h2]

/-- Witness for C10: two events sharing a key absent from the index are
both uploaded. -/
theorem intra_batch_duplicates_survive_witness :
    pipeline_published
      [⟨"uid-a", ⟨⟨2025, 1, 6⟩, 540, "US/Eastern"⟩,
        ⟨⟨2025, 1, 6⟩, 1020, "US/Eastern"⟩, "Front Desk", 0⟩,
       ⟨"uid-b", ⟨⟨2025, 1, 6⟩, 540, "US/Eastern"⟩,
        ⟨⟨2025, 1, 6⟩, 1020, "US/Eastern"⟩, "Front Desk", 99⟩] [] =
      [⟨"uid-a", ⟨⟨2025, 1, 6⟩, 540, "US/Eastern"⟩,
        ⟨⟨2025, 1, 6⟩, 1020, "US/Eastern"⟩, "Front Desk", 0⟩,
       ⟨"uid-b", ⟨⟨2025, 1, 6⟩, 540, "US/Eastern"⟩,
        ⟨⟨2025, 1, 6⟩, 1020, "US/Eastern"⟩, "Front Desk", 99⟩] := by
  have h := intra_batch_duplicates_survive [] [] []
    ⟨"uid-a", ⟨⟨2025, 1, 6⟩, 540, "US/Eastern"⟩,
      ⟨⟨2025, 1, 6⟩, 1020, "US/Eastern"⟩, "Front Desk", 0⟩
    ⟨"uid-b", ⟨⟨2025, 1, 6⟩, 540, "US/Eastern"⟩,
      ⟨⟨2025, 1, 6⟩, 1020, "US/Eastern"⟩, "Front Desk", 99⟩
    [] rfl (by decide)
  simpa using h

/-- C4 (amended): collection lookup is case-insensitive on the name
(first match wins), but a missing collection or a failed fetch does not
abort the run: `retrieve_existing_events` returns an empty index in both
variants and the pipeline then reconciles against it, treating every
generated event as new. -/
theorem retrieve_index_behavior :
    (∀ cals : List RemoteCalendar,
      (∀ c ∈ cals, lowerAscii c.name.data ≠ "personal".data) →
      retrieve_existing_events_nextcloud cals = []) ∧
    (∀ (pre post : List RemoteCalendar) (c : RemoteCalendar),
      (∀ c2 ∈ pre, lowerAscii c2.name.data ≠ "personal".data) →
      lowerAscii c.name.data = "personal".data →
      retrieve_existing_events_nextcloud (pre ++ c :: post) =
        c.events.filterMap id) ∧
    (∀ s : Nat, retrieve_existing_events_radicale (.fail s) = []) ∧
    (∀ batch : List CalendarEvent, pipeline_published batch [] = batch) := by
  refine ⟨?_, ?_, fun _ => rfl, ?_⟩
  · intro cals h
    unfold retrieve_existing_events_nextcloud
    rw [List.find?_eq_none.mpr]
    intro c hc
    simpa using h c hc
  · intro pre post c hpre hc
    unfold retrieve_existing_events_nextcloud
    induction pre with
    | nil => simp [List.find?, hc]
    | cons a pre ih =>
      have ha : ¬ lowerAscii a.name.data = "personal".data :=
        hpre a (List.mem_cons_self a pre)
      simp only [List.cons_append, List.find?]
      rw [show (decide (lowerAscii a.name.data = "personal".data)) = false by
        simpa using ha]
      exact ih (fun c2 hc2 => hpre c2 (List.mem_cons_of_mem a hc2))
  · intro batch
    simp [pipeline_published, compare_and_handle_existing,
      upload_to_radicale_individual_files, isDuplicate]

/-- Witness for C4: the spec scenario — among collections named Work,
Personal, Birthdays, the lookup for personal succeeds case-insensitively
and yields that collection's parsable events. -/
theorem retrieve_index_behavior_witness :
    retrieve_existing_events_nextcloud
      [⟨"Work", []⟩,
       ⟨"Personal", [some ⟨⟨⟨2025, 1, 6⟩, 540, "US/Eastern"⟩,
          ⟨⟨2025, 1, 6⟩, 1020, "US/Eastern"⟩, "Front Desk"⟩, none]⟩,
       ⟨"Birthdays", []⟩] =
      [⟨⟨⟨2025, 1, 6⟩, 540, "US/Eastern"⟩,
        ⟨⟨2025, 1, 6⟩, 1020, "US/Eastern"⟩, "Front Desk"⟩] := by
  have h := retrieve_index_behavior.2.1 [⟨"Work", []⟩] [⟨"Birthdays", []⟩]
    ⟨"Personal", [some ⟨⟨⟨2025, 1, 6⟩, 540, "US/Eastern"⟩,
      ⟨⟨2025, 1, 6⟩, 1020, "US/Eastern"⟩, "Front Desk"⟩, none]⟩
    (by decide) (by decide)
  simpa using h

/-- Counterexample for C4: with no collection named personal the CalDAV
variant returns an empty index instead of failing, a non-success status
makes the WebDAV variant return an empty index instead of failing, and
reconciling against the empty index publishes the entire batch as new. -/
theorem retrieve_index_absent_empty :
    retrieve_existing_events_nextcloud
      [⟨"Work", [some ⟨⟨⟨2025, 1, 6⟩, 540, "US/Eastern"⟩,
        ⟨⟨2025, 1, 6⟩, 1020, "US/Eastern"⟩, "Front Desk"⟩]⟩] = [] ∧
    retrieve_existing_events_radicale (.fail 500) = [] ∧
    pipeline_published
      [⟨"uid-a", ⟨⟨2025, 1, 6⟩, 540, "US/Eastern"⟩,
        ⟨⟨2025, 1, 6⟩, 1020, "US/Eastern"⟩, "Front Desk", 0⟩] [] =
      [⟨"uid-a", ⟨⟨2025, 1, 6⟩, 540, "US/Eastern"⟩,
        ⟨⟨2025, 1, 6⟩, 1020, "US/Eastern"⟩, "Front Desk", 0⟩] :=
  ⟨by decide, rfl, by decide⟩

/-- C2 (amended): for every raw shift the normalizer accepts, both
endpoints carry the fixed `US/Eastern` zone and sit on the same calendar
date (both variants compose start and end from the same date tokens), so
`dtstart < dtend` holds exactly when the parsed start clock time is
earlier in the day than the parsed end clock time; an overnight span
yields `dtend < dtstart` (see the counterexample). -/
theorem normalizer_zone_and_clock_order :
    (∀ (uid : String) (stamp : Nat) (ds tr det : String) (e : CalendarEvent),
      create_icalendar_event_radicale uid stamp ds tr det = some e →
      e.dtstart.zone = "US/Eastern" ∧ e.dtend.zone = "US/Eastern" ∧
      e.dtstart.date = e.dtend.date ∧
      (ltLocalDT e.dtstart e.dtend ↔ e.dtstart.minutes < e.dtend.minutes)) ∧
    (∀ (uid : String) (stamp : Nat) (ds st et det : String)
      (sl : Option String) (e : CalendarEvent),
      create_icalendar_event_nextcloud uid stamp ds st et det sl = some e →
      e.dtstart.zone = "US/Eastern" ∧ e.dtend.zone = "US/Eastern" ∧
      e.dtstart.date = e.dtend.date ∧
      (ltLocalDT e.dtstart e.dtend ↔ e.dtstart.minutes < e.dtend.minutes)) := by
  constructor
  · intro uid stamp ds tr det e h
    unfold create_icalendar_event_radicale at h
    split at h
    · split at h
      · injection h with h
        subst h
        refine ⟨rfl, rfl, rfl, ?_⟩
        simp only [ltLocalDT, dtOrd]
        omega
      · exact absurd h (by simp)
    · exact absurd h (by simp)
  · intro uid stamp ds st et det sl e h
    unfold create_icalendar_event_nextcloud at h
    split at h
    · split at h
      · injection h with h
        subst h
        refine ⟨rfl, rfl, rfl, ?_⟩
        simp only [ltLocalDT, dtOrd]
        omega
      · exact absurd h (by simp)
    · exact absurd h (by simp)

/-- Witness for C2: the spec scenario shift 9:00 AM - 5:00 PM on
Mon Jan 06 2025 normalizes with start strictly before end. -/
theorem normalizer_zone_and_clock_order_witness :
    ltLocalDT ⟨⟨2025, 1, 6⟩, 540, "US/Eastern"⟩
      ⟨⟨2025, 1, 6⟩, 1020, "US/Eastern"⟩ := by
  have h := normalizer_zone_and_clock_order.1 "u" 0 "Mon Jan 06 2025"
    "9:00 AM - 5:00 PM" "Front Desk"
    ⟨"u", ⟨⟨2025, 1, 6⟩, 540, "US/Eastern"⟩,
      ⟨⟨2025, 1, 6⟩, 1020, "US/Eastern"⟩, "Front Desk", 0⟩ (by decide)
  exact h.2.2.2.mpr (by decide)

/-- Counterexample for C2: the overnight span 10:00 PM - 6:00 AM is
well-formed for the normalizer, but both endpoints are placed on the
same date, so the produced event has dtend strictly before dtstart. -/
theorem normalizer_overnight_end_before_start :
    create_icalendar_event_radicale "u" 0 "Mon Jan 06 2025"
        "10:00 PM - 6:00 AM" "Overnight" =
      some ⟨"u", ⟨⟨2025, 1, 6⟩, 1320, "US/Eastern"⟩,
        ⟨⟨2025, 1, 6⟩, 360, "US/Eastern"⟩, "Overnight", 0⟩ ∧
    ¬ ltLocalDT ⟨⟨2025, 1, 6⟩, 1320, "US/Eastern"⟩
        ⟨⟨2025, 1, 6⟩, 360, "US/Eastern"⟩ ∧
    ltLocalDT ⟨⟨2025, 1, 6⟩, 360, "US/Eastern"⟩
      ⟨⟨2025, 1, 6⟩, 1320, "US/Eastern"⟩ :=
  ⟨by decide, by decide, by decide⟩

theorem files_nextcloud_from_skip (uidOf : Nat → String) (stamp : Nat) :
    ∀ (pre : List RawShiftN) (i : Nat) (b : RawShiftN) (post : List RawShiftN),
      create_icalendar_event_nextcloud (uidOf (i + pre.length)) stamp
        b.date b.start_time b.end_time b.details b.shift_length = none →
      files_nextcloud_from uidOf stamp i (pre ++ b :: post) =
        files_nextcloud_from uidOf stamp i pre ++
          files_nextcloud_from uidOf stamp (i + pre.length + 1) post := by
  intro pre
  induction pre with
  | nil =>
    intro i b post h
    simp only [List.length_nil, Nat.add_zero] at h
    simp only [List.nil_append, files_nextcloud_from, h, List.length_nil,
      Nat.add_zero]
  | cons a pre ih =>
    intro i b post h
    have hlen : i + (a :: pre).length = (i + 1) + pre.length := by
      simp [List.length_cons]; omega
    rw [hlen] at h
    have hrec := ih (i + 1) b post h
    simp only [List.cons_append, files_nextcloud_from, List.append_eq]
    rw [hrec, hlen]
    cases create_icalendar_event_nextcloud (uidOf i) stamp
        a.date a.start_time a.end_time a.details a.shift_length <;> simp

theorem files_radicale_from_abort (uidOf : Nat → String) (stamp : Nat) :
    ∀ (pre : List RawShiftR) (i : Nat) (b : RawShiftR) (post : List RawShiftR),
      create_icalendar_event_radicale (uidOf (i + pre.length)) stamp
        b.date b.time_range b.details = none →
      files_radicale_from uidOf stamp i (pre ++ b :: post) = none := by
  intro pre
  induction pre with
  | nil =>
    intro i b post h
    simp only [List.length_nil, Nat.add_zero] at h
    simp only [List.nil_append, files_radicale_from, h]
  | cons a pre ih =>
    intro i b post h
    have hlen : i + (a :: pre).length = (i + 1) + pre.length := by
      simp [List.length_cons]; omega
    rw [hlen] at h
    have hrec := ih (i + 1) b post h
    simp only [List.cons_append, files_radicale_from, List.append_eq]
    rw [hrec]
    cases create_icalendar_event_radicale (uidOf i) stamp
        a.date a.time_range a.details <;> simp

/-- C5 (amended): per-shift failure confinement holds in the nextcloud
variant, whose `create_individual_ics_files` wraps each entry in its own
try/except — a failing entry contributes no event and every other
entry is still normalized in place; in the radicale variant the same
function has no per-entry handler, so one failing entry aborts the whole
batch (see the counterexample). -/
theorem normalization_failure_confinement :
    (∀ (uidOf : Nat → String) (stamp : Nat) (pre post : List RawShiftN)
      (b : RawShiftN),
      create_icalendar_event_nextcloud (uidOf pre.length) stamp
        b.date b.start_time b.end_time b.details b.shift_length = none →
      create_individual_ics_files_nextcloud uidOf stamp (pre ++ b :: post) =
        files_nextcloud_from uidOf stamp 0 pre ++
          files_nextcloud_from uidOf stamp (pre.length + 1) post) ∧
    (∀ (uidOf : Nat → String) (stamp : Nat) (pre post : List RawShiftR)
      (b : RawShiftR),
      create_icalendar_event_radicale (uidOf pre.length) stamp
        b.date b.time_range b.details = none →
      create_individual_ics_files_radicale uidOf stamp (pre ++ b :: post) =
        none) := by
  constructor
  · intro uidOf stamp pre post b h
    unfold create_individual_ics_files_nextcloud
    have h0 : create_icalendar_event_nextcloud (uidOf (0 + pre.length)) stamp
        b.date b.start_time b.end_time b.details b.shift_length = none := by
      simpa using h
    simpa using files_nextcloud_from_skip uidOf stamp pre 0 b post h0
  · intro uidOf stamp pre post b h
    unfold create_individual_ics_files_radicale
    have h0 : create_icalendar_event_radicale (uidOf (0 + pre.length)) stamp
        b.date b.time_range b.details = none := by
      simpa using h
    exact files_radicale_from_abort uidOf stamp pre 0 b post h0

/-- Witness for C5: a batch whose middle entry has an unsplittable date
label still yields the events of the first and last entries. -/
theorem normalization_failure_confinement_witness :
    create_individual_ics_files_nextcloud constUid 0
      ([⟨"Mon Jan 06 2025", "9:00 AM", "5:00 PM", "Front Desk", none⟩] ++
        ⟨"BadDate", "9:00 AM", "5:00 PM", "X", none⟩ ::
          [⟨"Tue Jan 07 2025", "10:00 AM", "2:00 PM", "Back Office", none⟩]) =
      [⟨"u", ⟨⟨2025, 1, 6⟩, 540, "US/Eastern"⟩,
        ⟨⟨2025, 1, 6⟩, 1020, "US/Eastern"⟩,
        "09:00 AM - 05:00 PM: Front Desk", 0⟩,
       ⟨"u", ⟨⟨2025, 1, 7⟩, 600, "US/Eastern"⟩,
        ⟨⟨2025, 1, 7⟩, 840, "US/Eastern"⟩,
        "10:00 AM - 02:00 PM: Back Office", 0⟩] := by
  rw [normalization_failure_confinement.1 constUid 0
    [⟨"Mon Jan 06 2025", "9:00 AM", "5:00 PM", "Front Desk", none⟩]
    [⟨"Tue Jan 07 2025", "10:00 AM", "2:00 PM", "Back Office", none⟩]
    ⟨"BadDate", "9:00 AM", "5:00 PM", "X", none⟩ (by decide)]
  decide

/-- Counterexample for C5: in the radicale variant one entry with an
unsplittable date label makes the whole batch fail, even though the other
entry normalizes fine on its own. -/
theorem radicale_batch_aborts_on_bad_entry :
    create_individual_ics_files_radicale constUid 0
      [⟨"BadDate", "9:00 AM - 5:00 PM", "X"⟩,
       ⟨"Mon Jan 06 2025", "9:00 AM - 5:00 PM", "Front Desk"⟩] = none ∧
    create_icalendar_event_radicale "u" 0 "Mon Jan 06 2025"
      "9:00 AM - 5:00 PM" "Front Desk" ≠ none :=
  ⟨by decide, by decide⟩

theorem processShift_skip {d : String} {b : ShiftBlock}
    (h : blockRaw d b = none) :
    ∀ st, processShift d st b = st := by
  intro st
  simp [processShift, h]

theorem foldl_skip_middle {α β : Type} (f : β → α → β) (x : α)
    (l1 l2 : List α) (h : ∀ st, f st x = st) (st : β) :
    (l1 ++ x :: l2).foldl f st = (l1 ++ l2).foldl f st := by
  simp [List.foldl_append, List.foldl_cons, h]

theorem foldl_middle_eq {α β : Type} (f : β → α → β) (x y : α)
    (l1 l2 : List α) (h : ∀ st, f st x = f st y) (st : β) :
    (l1 ++ x :: l2).foldl f st = (l1 ++ y :: l2).foldl f st := by
  simp [List.foldl_append, List.foldl_cons, h]

/-- C6: in the rich-schema extractor a shift block whose rendered time
text does not match the scrape pattern is skipped — it contributes no
RawShift, nothing escapes the per-shift boundary (the extractor is a
total function of the document), and the remaining blocks and days are
extracted exactly as if the bad block were absent. -/
theorem extractor_skips_unparsable_time :
    ∀ (ds1 ds2 : List DayBlock) (d : String) (pre post : List ShiftBlock)
      (b : ShiftBlock) (t : String),
      b.timeText = some t → searchShiftTime t = none →
      scrape_schedule_nextcloud (ds1 ++ ⟨d, pre ++ b :: post⟩ :: ds2) =
        scrape_schedule_nextcloud (ds1 ++ ⟨d, pre ++ post⟩ :: ds2) := by
  intro ds1 ds2 d pre post b t ht hs
  have hb : blockRaw d b = none := by simp [blockRaw, ht, hs]
  unfold scrape_schedule_nextcloud
  congr 1
  apply foldl_middle_eq
  intro st
  unfold processDay
  exact foldl_skip_middle _ _ _ _ (processShift_skip hb) st

/-- Witness for C6: a block rendering the unparsable time text All Day
is skipped while its neighbours are extracted. -/
theorem extractor_skips_unparsable_time_witness :
    scrape_schedule_nextcloud
      [⟨"Sat Nov 16 2024",
        [⟨some "9:00 AM - 5:00 PM", some "Front Desk"⟩] ++
          ⟨some "All Day", some "Holiday"⟩ ::
            [⟨some "6:00 PM - 9:00 PM", some "Stocking"⟩]⟩] =
      scrape_schedule_nextcloud
        [⟨"Sat Nov 16 2024",
          [⟨some "9:00 AM - 5:00 PM", some "Front Desk"⟩] ++
            [⟨some "6:00 PM - 9:00 PM", some "Stocking"⟩]⟩] :=
  extractor_skips_unparsable_time [] [] "Sat Nov 16 2024"
    [⟨some "9:00 AM - 5:00 PM", some "Front Desk"⟩]
    [⟨some "6:00 PM - 9:00 PM", some "Stocking"⟩]
    ⟨some "All Day", some "Holiday"⟩ "All Day" rfl (by decide)

theorem seen_iff_parsed_shifts (d : String) :
    ∀ (blocks : List ShiftBlock) (st : List ShiftKey × List RawShiftN)
      (k : ShiftKey),
      (k ∈ (blocks.foldl (processShift d) st).1 ↔
        k ∈ st.1 ∨ k ∈ parsedKeysDay d blocks) := by
  intro blocks
  induction blocks with
  | nil => intro st k; simp [parsedKeysDay]
  | cons b rest ih =>
    intro st k
    rw [List.foldl_cons]
    cases hb : blockRaw d b with
    | none =>
      rw [processShift_skip hb st, ih st k]
      simp [parsedKeysDay, List.filterMap_cons, hb]
    | some r =>
      have hpk : parsedKeysDay d (b :: rest) =
          rawKey r :: parsedKeysDay d rest := by
        simp [parsedKeysDay, hb]
      rw [hpk]
      by_cases hmem : rawKey r ∈ st.1
      · have hps : processShift d st b = st := by
          simp [processShift, hb, hmem]
        rw [hps, ih st k, List.mem_cons]
        constructor
        · rintro (h1 | h1)
          · exact Or.inl h1
          · exact Or.inr (Or.inr h1)
        · rintro (h1 | h1 | h1)
          · exact Or.inl h1
          · subst h1; exact Or.inl hmem
          · exact Or.inr h1
      · have hps : processShift d st b = (rawKey r :: st.1, st.2 ++ [r]) := by
          simp [processShift, hb, hmem]
        rw [hps, ih _ k]
        simp only [List.mem_cons]
        tauto

theorem count_invariant_shifts (d : String) :
    ∀ (blocks : List ShiftBlock) (st : List ShiftKey × List RawShiftN)
      (k : ShiftKey),
      countKey st.2 k = (if k ∈ st.1 then 1 else 0) →
      countKey (blocks.foldl (processShift d) st).2 k =
        (if k ∈ (blocks.foldl (processShift d) st).1 then 1 else 0) := by
  intro blocks
  induction blocks with
  | nil => intro st k h; exact h
  | cons b rest ih =>
    intro st k h
    rw [List.foldl_cons]
    apply ih
    cases hb : blockRaw d b with
    | none => rw [processShift_skip hb st]; exact h
    | some r =>
      by_cases hmem : rawKey r ∈ st.1
      · have hps : processShift d st b = st := by
          simp [processShift, hb, hmem]
        rw [hps]; exact h
      · have hps : processShift d st b = (rawKey r :: st.1, st.2 ++ [r]) := by
          simp [processShift, hb, hmem]
        rw [hps]
        show countKey (st.2 ++ [r]) k = if k ∈ rawKey r :: st.1 then 1 else 0
        rw [show countKey (st.2 ++ [r]) k =
            countKey st.2 k + (if rawKey r = k then 1 else 0) by
          simp [countKey, List.countP_append, List.countP_cons]]
        rw [show countKey st.2 k = if k ∈ st.1 then 1 else 0 from h]
        by_cases hk : rawKey r = k
        · rw [if_pos hk, if_neg (by rw [← hk]; exact hmem),
            if_pos (by rw [List.mem_cons]; exact Or.inl hk.symm)]
        · rw [if_neg hk, Nat.add_zero]
          by_cases hks : k ∈ st.1
          · rw [if_pos hks, if_pos (List.mem_cons_of_mem _ hks)]
          · rw [if_neg hks, if_neg (fun hx => by
              rcases List.mem_cons.mp hx with h1 | h1
              · exact hk h1.symm
              · exact hks h1)]

theorem seen_iff_parsed_days :
    ∀ (days : List DayBlock) (st : List ShiftKey × List RawShiftN)
      (k : ShiftKey),
      (k ∈ (days.foldl processDay st).1 ↔
        k ∈ st.1 ∨ k ∈ allParsedKeys days) := by
  intro days
  induction days with
  | nil => intro st k; simp [allParsedKeys]
  | cons dy rest ih =>
    intro st k
    rw [List.foldl_cons]
    rw [ih (processDay st dy) k]
    unfold processDay
    rw [seen_iff_parsed_shifts dy.datetime dy.shifts st k]
    simp only [allParsedKeys, List.map_cons, List.flatten_cons,
      List.mem_append]
    tauto

theorem count_invariant_days :
    ∀ (days : List DayBlock) (st : List ShiftKey × List RawShiftN)
      (k : ShiftKey),
      countKey st.2 k = (if k ∈ st.1 then 1 else 0) →
      countKey (days.foldl processDay st).2 k =
        (if k ∈ (days.foldl processDay st).1 then 1 else 0) := by
  intro days
  induction days with
  | nil => intro st k h; exact h
  | cons dy rest ih =>
    intro st k h
    rw [List.foldl_cons]
    exact ih _ k (count_invariant_shifts dy.datetime dy.shifts st k h)

/-- C7 (amended): within one extraction call the dedup key is the full
5-tuple (date, start text, end text, detail text, shift-length text):
every parsable key of the document yields exactly one emitted RawShift,
however many blocks render it; the seen-set starts empty in each call.
Two blocks identical except for the optional shift-length text are not
deduplicated (see the counterexample). -/
theorem extractor_dedup_full_key :
    ∀ (days : List DayBlock) (k : ShiftKey), k ∈ allParsedKeys days →
      countKey (scrape_schedule_nextcloud days) k = 1 := by
  intro days k hk
  unfold scrape_schedule_nextcloud
  rw [count_invariant_days days ⟨[], []⟩ k (by simp [countKey])]
  rw [if_pos ((seen_iff_parsed_days days ⟨[], []⟩ k).mpr (Or.inr hk))]

/-- Witness for C7: two blocks rendering the identical shift under the
same key yield a single RawShift. -/
theorem extractor_dedup_full_key_witness :
    countKey
      (scrape_schedule_nextcloud
        [⟨"Fri Nov 15 2024",
          [⟨some "9:00 AM - 5:00 PM", some "Front Desk"⟩,
           ⟨some "9:00 AM - 5:00 PM", some "Front Desk"⟩]⟩])
      ("Fri Nov 15 2024", "9:00 AM", "5:00 PM", "Front Desk", none) = 1 :=
  extractor_dedup_full_key _ _ (by decide)

/-- Counterexample for C7: two blocks identical in (date, start text,
end text, detail text) but differing in the optional shift-length text
have different dedup keys, so the extractor emits two RawShifts for
them, not one. -/
theorem extractor_emits_two_for_length_difference :
    scrape_schedule_nextcloud
      [⟨"Fri Nov 15 2024",
        [⟨some "9:00 AM - 5:00 PM 8.0", some "Front Desk"⟩,
         ⟨some "9:00 AM - 5:00 PM", some "Front Desk"⟩]⟩] =
      [⟨"Fri Nov 15 2024", "9:00 AM", "5:00 PM", "Front Desk", some "8.0"⟩,
       ⟨"Fri Nov 15 2024", "9:00 AM", "5:00 PM", "Front Desk", none⟩] ∧
    ¬ (scrape_schedule_nextcloud
      [⟨"Fri Nov 15 2024",
        [⟨some "9:00 AM - 5:00 PM 8.0", some "Front Desk"⟩,
         ⟨some "9:00 AM - 5:00 PM", some "Front Desk"⟩]⟩]).length = 1 :=
  ⟨by decide, by decide⟩

theorem subBrackets_nil : subBrackets [] = [] := by
  rw [subBrackets]

theorem subBrackets_cons_some {c : Char} {cs r : List Char}
    (h : bracketMatch (c :: cs) = some r) :
    subBrackets (c :: cs) = subBrackets r := by
  rw [subBrackets]
  split
  · rename_i r2 heq
    rw [h] at heq
    injection heq with heq
    rw [heq]
  · rename_i heq
    rw [h] at heq
    exact absurd heq (by simp)

theorem subBrackets_cons_none {c : Char} {cs : List Char}
    (h : bracketMatch (c :: cs) = none) :
    subBrackets (c :: cs) = c :: subBrackets cs := by
  rw [subBrackets]
  split
  · rename_i r2 heq
    rw [h] at heq
    exact absurd heq (by simp)
  · rfl

theorem consumeToClose_cons (c : Char) (l : List Char)
    (h1 : c ≠ ']') (h2 : c ≠ '\n') :
    consumeToClose (c :: l) = consumeToClose l := by
  simp only [consumeToClose, if_neg h1, if_neg h2]

theorem consumeToClose_append {t : List Char} (r : List Char)
    (h3 : ']' ∉ t) (h4 : '\n' ∉ t) :
    consumeToClose (t ++ ']' :: r) = some r := by
  induction t with
  | nil => simp [consumeToClose]
  | cons c t ih =>
    simp only [List.mem_cons, not_or] at h3 h4
    rw [List.cons_append,
      consumeToClose_cons c _ (fun hc => h3.1 hc.symm) (fun hc => h4.1 hc.symm)]
    exact ih h3.2 h4.2

theorem dropWhile_append_all {p : Char → Bool} :
    ∀ ws : List Char, (∀ c ∈ ws, p c = true) →
    ∀ l : List Char, (ws ++ l).dropWhile p = l.dropWhile p := by
  intro ws
  induction ws with
  | nil => intro _ l; rfl
  | cons w ws ih =>
    intro h l
    rw [List.cons_append, List.dropWhile_cons,
      if_pos (h w (List.mem_cons_self w ws))]
    exact ih (fun c hc => h c (List.mem_cons_of_mem w hc)) l

theorem dropWhile_append_of_ne_nil {p : Char → Bool} :
    ∀ l1 : List Char, l1.dropWhile p ≠ [] →
    ∀ l2, (l1 ++ l2).dropWhile p = l1.dropWhile p ++ l2 := by
  intro l1
  induction l1 with
  | nil => intro h; exact absurd rfl h
  | cons a l1 ih =>
    intro h l2
    by_cases hp : p a = true
    · rw [List.dropWhile_cons, if_pos hp] at h
      rw [List.cons_append, List.dropWhile_cons, if_pos hp,
        List.dropWhile_cons, if_pos hp]
      exact ih h l2
    · rw [List.cons_append, List.dropWhile_cons, if_neg hp,
        List.dropWhile_cons, if_neg hp, List.cons_append]

theorem bracketMatch_ws {ws t : List Char} (r : List Char)
    (h2 : ∀ c ∈ ws, isSpaceCh c = true) (h3 : ']' ∉ t) (h4 : '\n' ∉ t) :
    bracketMatch (ws ++ '[' :: (t ++ ']' :: r)) = some r := by
  unfold bracketMatch
  rw [show (ws ++ '[' :: (t ++ ']' :: r)).dropWhile isSpaceCh =
      '[' :: (t ++ ']' :: r) by
    rw [dropWhile_append_all ws h2 ('[' :: (t ++ ']' :: r)),
      List.dropWhile_cons, if_neg (by decide)]]
  exact consumeToClose_append r h3 h4

theorem subBrackets_annihilate {ws t : List Char}
    (h2 : ∀ c ∈ ws, isSpaceCh c = true) (h3 : ']' ∉ t) (h4 : '\n' ∉ t) :
    subBrackets (ws ++ '[' :: (t ++ [']'])) = [] := by
  have hb : bracketMatch (ws ++ '[' :: (t ++ [']'])) = some [] :=
    bracketMatch_ws [] h2 h3 h4
  obtain ⟨c, cs, hcc⟩ : ∃ c cs, ws ++ '[' :: (t ++ [']']) = c :: cs := by
    cases ws with
    | nil => exact ⟨'[', t ++ [']'], rfl⟩
    | cons w ws2 => exact ⟨w, ws2 ++ '[' :: (t ++ [']']), rfl⟩
  rw [hcc, subBrackets_cons_some (hcc ▸ hb)]
  exact subBrackets_nil

theorem bracketMatch_head_plain {a : Char} (l : List Char)
    (ha : isSpaceCh a = false) (hb : a ≠ '[') :
    bracketMatch (a :: l) = none := by
  unfold bracketMatch
  rw [List.dropWhile_cons, if_neg (by simp [ha])]
  split
  · rename_i tail heq
    injection heq with hh _
    exact absurd hh hb
  · rfl

theorem subBrackets_strip (ws t : List Char)
    (h2 : ∀ c ∈ ws, isSpaceCh c = true) (h3 : ']' ∉ t) (h4 : '\n' ∉ t) :
    ∀ s : List Char, '[' ∉ s →
      (∀ c, s.getLast? = some c → isSpaceCh c = false) →
      subBrackets (s ++ (ws ++ '[' :: (t ++ [']']))) = s := by
  intro s
  induction s with
  | nil =>
    intro h1 h5
    rw [List.nil_append]
    exact subBrackets_annihilate h2 h3 h4
  | cons a s ih =>
    intro h1 h5
    have h1s : '[' ∉ s := fun hx => h1 (List.mem_cons_of_mem a hx)
    have h1a : a ≠ '[' := fun hc =>
      h1 (by rw [hc]; exact List.mem_cons_self _ _)
    cases s with
    | nil =>
      have ha : isSpaceCh a = false := h5 a rfl
      rw [List.cons_append, List.nil_append,
        subBrackets_cons_none (bracketMatch_head_plain _ ha h1a),
        subBrackets_annihilate h2 h3 h4]
    | cons b s2 =>
      have hlast : ∀ c, (b :: s2).getLast? = some c →
          isSpaceCh c = false := by
        intro c hc
        exact h5 c (by rw [List.getLast?_cons_cons]; exact hc)
      have hdw : (a :: b :: s2).dropWhile isSpaceCh ≠ [] := by
        intro hnil
        rw [List.dropWhile_eq_nil_iff] at hnil
        have hne : (a :: b :: s2) ≠ [] := by simp
        have hc : (a :: b :: s2).getLast? =
            some ((a :: b :: s2).getLast hne) :=
          List.getLast?_eq_getLast_of_ne_nil hne
        have hcm : (a :: b :: s2).getLast hne ∈ a :: b :: s2 :=
          List.getLast_mem hne
        have htrue := hnil _ hcm
        rw [h5 _ hc] at htrue
        exact Bool.false_ne_true htrue
      obtain ⟨d, ds, hd⟩ : ∃ d ds,
          (a :: b :: s2).dropWhile isSpaceCh = d :: ds := by
        cases hx : (a :: b :: s2).dropWhile isSpaceCh with
        | nil => exact absurd hx hdw
        | cons d ds => exact ⟨d, ds, rfl⟩
      have hdm : d ∈ a :: b :: s2 := by
        refine ((a :: b :: s2).dropWhile_sublist isSpaceCh).subset ?_
        rw [hd]
        exact List.mem_cons_self d ds
      have hdne : d ≠ '[' := fun hc => h1 (hc ▸ hdm)
      have hbm : bracketMatch
          (a :: ((b :: s2) ++ (ws ++ '[' :: (t ++ [']'])))) = none := by
        show bracketMatch
          ((a :: b :: s2) ++ (ws ++ '[' :: (t ++ [']']))) = none
        unfold bracketMatch
        rw [dropWhile_append_of_ne_nil _ hdw _, hd]
        rw [show ((d :: ds) ++ (ws ++ '[' :: (t ++ [']']))) =
            d :: (ds ++ (ws ++ '[' :: (t ++ [']']))) from rfl]
        split
        · rename_i tail heq
          injection heq with hh _
          exact absurd hh hdne
        · rfl
      rw [List.cons_append, subBrackets_cons_none hbm]
      rw [ih h1s hlast]

/-- C8: the bracketed-annotation stripping of the simple-schema scrapers
removes every square-bracketed annotation together with the whitespace
run preceding it; in particular the rendered time range
9:00 AM - 5:00 PM [Lunch] is cleaned to exactly 9:00 AM - 5:00 PM before
any further parsing. -/
theorem bracket_suffix_removed :
    cleanTimeRange "9:00 AM - 5:00 PM [Lunch]" = "9:00 AM - 5:00 PM" ∧
    (∀ s ws t : List Char,
      '[' ∉ s → (∀ c, s.getLast? = some c → isSpaceCh c = false) →
      (∀ c ∈ ws, isSpaceCh c = true) → ']' ∉ t → '\n' ∉ t →
      subBrackets (s ++ (ws ++ '[' :: (t ++ [']']))) = s) := by
  constructor
  · show (⟨subBrackets "9:00 AM - 5:00 PM [Lunch]".data⟩ : String) = _
    rw [show "9:00 AM - 5:00 PM [Lunch]".data =
        "9:00 AM - 5:00 PM".data ++ ([' '] ++
          '[' :: ("Lunch".data ++ [']'])) from rfl]
    rw [subBrackets_strip [' '] "Lunch".data (by decide) (by decide)
      (by decide) "9:00 AM - 5:00 PM".data (by decide) (by decide)]
  · intro s ws t h1 h5 h2 h3 h4
    exact subBrackets_strip ws t h2 h3 h4 s h1 h5

/-- Witness for C8: the general stripping statement applied to the
normative example. -/
theorem bracket_suffix_removed_witness :
    subBrackets ("9:00 AM - 5:00 PM".data ++ ([' '] ++
        '[' :: ("Lunch".data ++ [']']))) = "9:00 AM - 5:00 PM".data :=
  bracket_suffix_removed.2 "9:00 AM - 5:00 PM".data [' '] "Lunch".data
    (by decide) (by decide) (by decide) (by decide) (by decide)

theorem safe_click_go_all_fail (outcome : Nat → Bool) :
    ∀ (k i : Nat), (∀ j, j < k → outcome (i + j) = false) →
      safe_click_go outcome k i = (failTrace k, false) := by
  intro k
  induction k with
  | zero => intro i h; rfl
  | succ k ih =>
    intro i h
    have h0 : outcome i = false := by
      have := h 0 (by omega)
      simpa using this
    rw [safe_click_go, if_neg (by simp [h0])]
    rw [ih (i + 1) (fun j hj => by
      have := h (j + 1) (by omega)
      rw [show i + (j + 1) = i + 1 + j by omega] at this
      exact this)]
    rfl

theorem safe_click_go_first_success (outcome : Nat → Bool) :
    ∀ (j k i : Nat), j < k → outcome (i + j) = true →
      (∀ l, l < j → outcome (i + l) = false) →
      safe_click_go outcome k i =
        (failTrace j ++ [ClickAction.wait 20, ClickAction.click], true) := by
  intro j
  induction j with
  | zero =>
    intro k i hk hs _
    cases k with
    | zero => omega
    | succ k =>
      rw [safe_click_go, if_pos (by simpa using hs)]
      rfl
  | succ j ih =>
    intro k i hk hs hf
    cases k with
    | zero => omega
    | succ k =>
      have h0 : outcome i = false := by
        have := hf 0 (by omega)
        simpa using this
      rw [safe_click_go, if_neg (by simp [h0])]
      rw [ih k (i + 1) (by omega)
        (by rw [show i + 1 + j = i + (j + 1) by omega]; exact hs)
        (fun l hl => by
          have := hf (l + 1) (by omega)
          rw [show i + (l + 1) = i + 1 + l by omega] at this
          exact this)]
      rfl

theorem safe_click_go_false_iff (outcome : Nat → Bool) :
    ∀ (k i : Nat), (safe_click_go outcome k i).2 = false ↔
      ∀ j, j < k → outcome (i + j) = false := by
  intro k
  induction k with
  | zero =>
    intro i
    constructor
    · intro _ j hj; omega
    · intro _; rfl
  | succ k ih =>
    intro i
    by_cases h0 : outcome i = true
    · rw [safe_click_go, if_pos h0]
      constructor
      · intro hfalse; exact absurd hfalse (by simp)
      · intro hall
        have := hall 0 (by omega)
        simp [h0] at this
    · have h0f : outcome i = false := by
        cases hv : outcome i
        · rfl
        · exact absurd hv h0
      rw [safe_click_go, if_neg (by simp [h0f])]
      have hgo : ((let (tr, ok) := safe_click_go outcome k (i + 1)
          (ClickAction.wait 20 :: ClickAction.sleep 10 :: tr, ok)) :
            List ClickAction × Bool).2 =
          (safe_click_go outcome k (i + 1)).2 := by
        rcases safe_click_go outcome k (i + 1) with ⟨tr, ok⟩
        rfl
      rw [hgo, ih (i + 1)]
      constructor
      · intro hall j hj
        cases j with
        | zero => simpa using h0f
        | succ j =>
          have := hall j (by omega)
          rw [show i + 1 + j = i + (j + 1) by omega] at this
          exact this
      · intro hall j hj
        have := hall (j + 1) (by omega)
        rw [show i + (j + 1) = i + 1 + j by omega] at this
        exact this

/-- C9: the bounded-retry click primitive, at its observed call
configuration of 5 retries: it raises exactly when all 5 attempts fail,
in which case it waited up to 20 before each of the 5 attempts, slept 10
after each failed attempt, and the raised error carries the locator pair
and the retry count; when attempt i is the first success it returns
right after the i-th wait-and-click with no further attempts. -/
theorem safe_click_retry_contract :
    ∀ (outcome : Nat → Bool) (locBy locValue : String),
      ((safe_click outcome locBy locValue 5).2 =
          Except.error ⟨locBy, locValue, 5⟩ ↔
        ∀ i, i < 5 → outcome i = false) ∧
      ((∀ i, i < 5 → outcome i = false) →
        safe_click outcome locBy locValue 5 =
          (failTrace 5, Except.error ⟨locBy, locValue, 5⟩)) ∧
      (∀ i, i < 5 → outcome i = true → (∀ j, j < i → outcome j = false) →
        safe_click outcome locBy locValue 5 =
          (failTrace i ++ [ClickAction.wait 20, ClickAction.click],
            Except.ok ())) := by
  intro outcome locBy locValue
  have hiff := safe_click_go_false_iff outcome 5 0
  refine ⟨?_, ?_, ?_⟩
  · unfold safe_click
    rcases hgo : safe_click_go outcome 5 0 with ⟨tr, ok⟩
    rw [hgo] at hiff
    have hzero : (∀ j, j < 5 → outcome (0 + j) = false) ↔
        (∀ i, i < 5 → outcome i = false) := by
      constructor
      · intro h j hj; simpa using h j hj
      · intro h j hj; simpa using h j hj
    cases ok
    · constructor
      · intro _
        exact hzero.mp (hiff.mp rfl)
      · intro _
        rfl
    · constructor
      · intro hcontr
        exact absurd hcontr (by simp)
      · intro hall
        exact absurd (hiff.mpr (hzero.mpr hall)) (by simp)
  · intro hall
    unfold safe_click
    rw [safe_click_go_all_fail outcome 5 0 (fun j hj => by
      simpa using hall j hj)]
    rfl
  · intro i hi hs hf
    unfold safe_click
    rw [safe_click_go_first_success outcome i 5 0 hi (by simpa using hs)
      (fun l hl => by simpa using hf l hl)]
    rfl

/-- A concrete attempt environment whose third attempt succeeds. -/
def succAt2 : Nat → Bool := fun n => n == 2

/-- Witness for C9: with the first two attempts failing and the third
succeeding, safe_click waits, sleeps twice, clicks on the third attempt
and returns success. -/
theorem safe_click_retry_contract_witness :
    safe_click succAt2 "By.ID" "idSIButton9" 5 =
      (failTrace 2 ++ [ClickAction.wait 20, ClickAction.click],
        Except.ok ()) :=
  (safe_click_retry_contract succAt2 "By.ID" "idSIButton9").2.2 2
    (by decide) (by decide) (by decide)

end ScheduleSync
